import Mathlib

/-!
Verification of the HTTP request parser of `src/webserver/request.rs`
(`parse_request` and its `WebRequest` output) against its natural-language
specification.

Bytes are modelled as `List Nat` (each element a byte value).  The byte
utility library (`byteutils`) is not part of the sources under `src/`, so
its four functions are modelled from the specification of the collaborator
interface (spec section 6).  Everything else is translated directly from
`src/webserver/request.rs`.

The Rust function signals invalid input with `assert_eq!` / `assert!` /
`panic!` and returns a bare `WebRequest`; there is no error type in the
source.  Each panic site is modelled as an `Except.error` carrying a
`Panic` value naming that site, so that the behaviour at invalid inputs is
observable inside the embedding.  An `Except.error` outcome means the Rust
code panics (unwinds) at that point; it does not mean the Rust function
returns an error value to its caller.
-/

/-- ASCII bytes of a (pure-ASCII) string literal, used to write byte-string
literals like the Rust `b"method"`. -/
def s2b (s : String) : List Nat := s.data.map Char.toNat

/-- Byte-level ASCII lowercasing, as in Rust `into_ascii_lowercase`. -/
def lower_byte (b : Nat) : Nat := if 65 ≤ b ∧ b ≤ 90 then b + 32 else b

/-- Models Rust `Vec::into_ascii_lowercase` (ASCII case fold of every byte). -/
def ascii_lowercase (l : List Nat) : List Nat := l.map lower_byte

/-- Modelled from the spec: byteutils split-on-CRLF — "split bytes into an
ordered sequence of line slices on CRLF boundaries, one per line, in order"
(missing from src/; only its caller `parse_request` is provided).  A
trailing CRLF yields a trailing empty line, so a buffer ending in
CRLFCRLF ends in two empty lines. -/
def split_bytes_on_crlf : List Nat → List (List Nat)
  | [] => [[]]
  | 13 :: 10 :: rest => [] :: split_bytes_on_crlf rest
  | b :: rest =>
    match split_bytes_on_crlf rest with
    | [] => [[b]]
    | p :: ps => (b :: p) :: ps

/-- Prepend a byte to the first slice of a split result. -/
def consHead (b : Nat) : List (List Nat) → List (List Nat)
  | [] => [[b]]
  | p :: ps => (b :: p) :: ps

/-- Modelled from the spec: byteutils bounded split-on-byte — "ordered
sequence of at most max_splits + 1 slices, splitting left-to-right and
stopping after the limit" (missing from src/; only its caller
`parse_request` is provided). -/
def split_bytes_on (sep : Nat) : Nat → List Nat → List (List Nat)
  | _, [] => [[]]
  | 0, l => [l]
  | k + 1, b :: rest =>
    if b = sep then [] :: split_bytes_on sep k rest
    else consHead b (split_bytes_on sep (k + 1) rest)

/-- ASCII whitespace test used by the left-strip utility. -/
def wsB (b : Nat) : Bool := b = 32 || b = 9 || b = 10 || b = 12 || b = 13

/-- Modelled from the spec: byteutils left-strip-whitespace — "bytes with
leading whitespace removed" (missing from src/; only its caller
`parse_request` is provided). -/
def lstrip (l : List Nat) : List Nat := l.dropWhile wsB

/-- Hexadecimal digit test on a byte. -/
def isHexDigit (b : Nat) : Bool :=
  (48 ≤ b && b ≤ 57) || (65 ≤ b && b ≤ 70) || (97 ≤ b && b ≤ 102)

/-- Value of a hexadecimal digit byte. -/
def hexVal (b : Nat) : Nat :=
  if b ≤ 57 then b - 48 else if b ≤ 70 then b - 55 else b - 87

/-- Modelled from the spec: byteutils percent-decode — "reversing %XX
hexadecimal escapes in a URI component back to raw bytes, per standard
percent-encoding rules" (missing from src/; only its caller `parse_request`
is provided).  The standard rules leave malformed escapes unspecified; here
a percent sign not followed by two hexadecimal digits is passed through
unchanged together with the bytes after it. -/
def percent_decode : List Nat → List Nat
  | [] => []
  | 37 :: h :: l :: rest =>
    if isHexDigit h && isHexDigit l then
      (16 * hexVal h + hexVal l) :: percent_decode rest
    else 37 :: h :: l :: percent_decode rest
  | b :: rest => b :: percent_decode rest

/-- Continuation byte test for UTF-8. -/
def isCont (b : Nat) : Bool := 128 ≤ b && b ≤ 191

/-- The UTF-8 bytes of the replacement character U+FFFD. -/
def repl : List Nat := [239, 191, 189]

/-- Decoder state for the UTF-8 validator: the pending bytes of a sequence
in progress, the number of continuation bytes still expected (0 means a
lead byte is expected next), and the allowed range for the next byte. -/
structure Utf8State where
  pending : List Nat
  need : Nat
  lo : Nat
  hi : Nat
deriving DecidableEq

/-- The state expecting a lead byte. -/
def utf8Init : Utf8State := ⟨[], 0, 0, 0⟩

/-- Handle one byte in lead position: ASCII passes through, a valid lead
byte opens a multi-byte sequence with the constrained range for its second
byte, and an invalid byte becomes a replacement character. -/
def utf8_lead (b : Nat) : List Nat × Utf8State :=
  if b < 128 then ([b], utf8Init)
  else if 194 ≤ b ∧ b ≤ 223 then ([], ⟨[b], 1, 128, 191⟩)
  else if b = 224 then ([], ⟨[b], 2, 160, 191⟩)
  else if 225 ≤ b ∧ b ≤ 236 then ([], ⟨[b], 2, 128, 191⟩)
  else if b = 237 then ([], ⟨[b], 2, 128, 159⟩)
  else if 238 ≤ b ∧ b ≤ 239 then ([], ⟨[b], 2, 128, 191⟩)
  else if b = 240 then ([], ⟨[b], 3, 144, 191⟩)
  else if 241 ≤ b ∧ b ≤ 243 then ([], ⟨[b], 3, 128, 191⟩)
  else if b = 244 then ([], ⟨[b], 3, 128, 143⟩)
  else (repl, utf8Init)

/-- Handle one byte in any state.  An invalid continuation byte closes the
pending sequence as one replacement character and is then reprocessed as a
lead byte, matching the maximal-subpart substitution of
`String::from_utf8_lossy`. -/
def utf8_step (st : Utf8State) (b : Nat) : List Nat × Utf8State :=
  if st.need = 0 then utf8_lead b
  else if st.lo ≤ b ∧ b ≤ st.hi then
    if st.need = 1 then (st.pending ++ [b], utf8Init)
    else ([], ⟨st.pending ++ [b], st.need - 1, 128, 191⟩)
  else
    let r := utf8_lead b
    (repl ++ r.1, r.2)

/-- Run the validator over the bytes; a sequence left unfinished at the end
of input becomes one replacement character. -/
def utf8_run (st : Utf8State) : List Nat → List Nat
  | [] => if st.need = 0 then [] else repl
  | b :: rest => (utf8_step st b).1 ++ utf8_run (utf8_step st b).2 rest

/-- Models Rust `String::from_utf8_lossy` at the byte level: valid UTF-8
sequences are kept, invalid sequences are replaced by U+FFFD.  The result
is the byte content of the produced string. -/
def utf8_lossy_bytes (l : List Nat) : List Nat := utf8_run utf8Init l

/-- The environment dictionary: models the Rust
`HashMap<Vec<u8>, Vec<u8>>` as an association list with unique keys. -/
abbrev Env : Type := List (List Nat × List Nat)

/-- Models `HashMap::insert`: replace the value of an existing key, or add
the binding. -/
def envInsert : Env → List Nat → List Nat → Env
  | [], k, v => [(k, v)]
  | (k2, v2) :: rest, k, v =>
    if k2 = k then (k, v) :: rest else (k2, v2) :: envInsert rest k v

/-- Models `HashMap` lookup. -/
def envLookup : Env → List Nat → Option (List Nat)
  | [], _ => none
  | (k2, v) :: rest, k => if k2 = k then some v else envLookup rest k

/-- The distinct abort sites of `parse_request`.  Each constructor names the
panic or assertion that fires in the Rust source; the constructor names
follow the error taxonomy of the specification where a variant exists. -/
inductive Panic where
  /-- `assert_eq!(request_parts.len(), 3)` at line 51. -/
  | MalformedRequestLine
  /-- `panic!("unknown protocol ...")` at line 58. -/
  | UnsupportedProtocolVersion
  /-- `assert!(path.len() > 0)` at line 65 (no spec variant names it). -/
  | EmptyPath
  /-- `panic!("absolute path required ...")` at line 71. -/
  | MissingLeadingSlash
  /-- `panic!("invalid header ...")` at line 98. -/
  | MalformedHeaderLine
deriving DecidableEq

/-- The output entity of `parse_request` (struct `WebRequest` in the
source): the CGI/WSGI-like environment dictionary, and the percent-decoded,
UTF-8 (lossy) decoded path, held as its byte content. -/
structure WebRequest where
  environ : Env
  path : List Nat
deriving DecidableEq

instance : DecidableEq (Except Panic WebRequest) := fun a b =>
  match a, b with
  | .ok x, .ok y =>
    if h : x = y then .isTrue (congrArg Except.ok h)
    else .isFalse (fun hc => h (Except.ok.inj hc))
  | .error x, .error y =>
    if h : x = y then .isTrue (congrArg Except.error h)
    else .isFalse (fun hc => h (Except.error.inj hc))
  | .ok _, .error _ => .isFalse (fun hc => Except.noConfusion hc)
  | .error _, .ok _ => .isFalse (fun hc => Except.noConfusion hc)

/-- The header loop of `parse_request` (source lines 89 to 110): for each
line, skip it if empty; otherwise split on the first colon, requiring
exactly two parts; lowercase the name after prefixing `http_`; left-strip
the value; insert into the environment. -/
def process_headers (environ : Env) : List (List Nat) → Except Panic Env
  | [] => .ok environ
  | line :: rest =>
    if line.length = 0 then process_headers environ rest
    else
      let header_parts := split_bytes_on 58 1 line
      if header_parts.length ≠ 2 then .error .MalformedHeaderLine
      else
        let header_name := ascii_lowercase (s2b "http_" ++ header_parts.getD 0 [])
        let header_value := lstrip (header_parts.getD 1 [])
        process_headers (envInsert environ header_name header_value) rest

/-- Target resolution of `parse_request` (source lines 66 to 81): the
asterisk form for an `options` method, otherwise the leading-slash check
followed by the bounded split on the first question mark. -/
def target_resolve (environ : Env) (method path : List Nat) : Except Panic Env :=
  if method = s2b "options" ∧ path = s2b "*" then
    .ok (envInsert (envInsert environ (s2b "path") path) (s2b "query_string") [])
  else
    if path.headD 0 ≠ 47 then .error .MissingLeadingSlash
    else
      let parts := split_bytes_on 63 1 path
      if parts.length > 1 then
        .ok (envInsert (envInsert environ (s2b "path") (parts.getD 0 []))
              (s2b "query_string") (parts.getD 1 []))
      else
        .ok (envInsert (envInsert environ (s2b "path") path)
              (s2b "query_string") [])

/-- Translation of `parse_request` (source lines 46 to 116).  The input is
the raw request byte buffer; the result is the constructed `WebRequest`, or
the `Panic` modelling the abort the Rust code performs on that input.
`lines[0]` of the source is modelled with `headD []`, which is faithful
because the CRLF split never returns an empty sequence. -/
def parse_request (request_bytes : List Nat) : Except Panic WebRequest :=
  let lines := split_bytes_on_crlf request_bytes
  let request_line := lines.headD []
  let request_parts := split_bytes_on 32 2 request_line
  if request_parts.length ≠ 3 then .error .MalformedRequestLine
  else
    let method := ascii_lowercase (request_parts.getD 0 [])
    let path := request_parts.getD 1 []
    let protocol := ascii_lowercase (request_parts.getD 2 [])
    if protocol ≠ s2b "http/1.0" ∧ protocol ≠ s2b "http/1.1" then
      .error .UnsupportedProtocolVersion
    else
      let environ : Env := envInsert (envInsert [] (s2b "method") method)
        (s2b "protocol") protocol
      if path.length = 0 then .error .EmptyPath
      else
        match target_resolve environ method path with
        | .error e => .error e
        | .ok environ1 =>
          let path_decoded := percent_decode ((envLookup environ1 (s2b "path")).getD [])
          let path_decoded_utf8 := utf8_lossy_bytes path_decoded
          match process_headers environ1 (lines.drop 1) with
          | .error e => .error e
          | .ok environ2 => .ok { environ := environ2, path := path_decoded_utf8 }

/-- Line 0 of the split input: the request line. -/
def line0 (bytes : List Nat) : List Nat := (split_bytes_on_crlf bytes).headD []

/-- The parts of the request line under the bounded space split. -/
def requestParts (bytes : List Nat) : List (List Nat) :=
  split_bytes_on 32 2 (line0 bytes)

/-- The lowercased method token. -/
def methodTok (bytes : List Nat) : List Nat :=
  ascii_lowercase ((requestParts bytes).getD 0 [])

/-- The raw request-target token. -/
def pathTok (bytes : List Nat) : List Nat := (requestParts bytes).getD 1 []

/-- The lowercased protocol token. -/
def protoTok (bytes : List Nat) : List Nat :=
  ascii_lowercase ((requestParts bytes).getD 2 [])

/-- The protocol gate of the parser: the lowercased protocol token is one
of the two recognized versions. -/
def protoOK (bytes : List Nat) : Prop :=
  protoTok bytes = s2b "http/1.0" ∨ protoTok bytes = s2b "http/1.1"

/-- The asterisk-form condition of target resolution. -/
def asteriskForm (bytes : List Nat) : Prop :=
  methodTok bytes = s2b "options" ∧ pathTok bytes = s2b "*"

/-- The header lines: every split line after the request line. -/
def headerLines (bytes : List Nat) : List (List Nat) :=
  (split_bytes_on_crlf bytes).drop 1

/-- The initial environment after the method and protocol insertions. -/
def env0 (bytes : List Nat) : Env :=
  envInsert (envInsert [] (s2b "method") (methodTok bytes)) (s2b "protocol")
    (protoTok bytes)

/-- All request-line gates pass: three parts, recognized protocol, nonempty
target which is either the asterisk form or starts with a slash. -/
def requestLineOK (bytes : List Nat) : Prop :=
  (requestParts bytes).length = 3 ∧ protoOK bytes ∧ pathTok bytes ≠ [] ∧
    (asteriskForm bytes ∨ (pathTok bytes).headD 0 = 47)

/-- Lookup into the environment of a successful outcome. -/
def okLookup (res : Except Panic WebRequest) (k : List Nat) : Option (List Nat) :=
  match res with
  | .ok r => envLookup r.environ k
  | .error _ => none

/-- Number of occurrences of a byte in a byte list. -/
def count_byte (sep : Nat) : List Nat → Nat
  | [] => 0
  | b :: rest => (if b = sep then 1 else 0) + count_byte sep rest

/-- Unreserved URI characters in the sense of RFC 3986: ASCII letters,
digits, hyphen, period, underscore, tilde. -/
def unreservedByte (b : Nat) : Bool :=
  (48 ≤ b && b ≤ 57) || (65 ≤ b && b ≤ 90) || (97 ≤ b && b ≤ 122) ||
    b = 45 || b = 46 || b = 95 || b = 126

/-- The four reserved keys are all present in an environment. -/
def reservedPresent (env : Env) : Prop :=
  (envLookup env (s2b "method")).isSome ∧ (envLookup env (s2b "protocol")).isSome ∧
    (envLookup env (s2b "path")).isSome ∧ (envLookup env (s2b "query_string")).isSome

/-- A key an environment entry of a parse result may carry: one of the four
reserved keys, or a lowercase key carrying the `http_` marker in front. -/
def KeyOK (k : List Nat) : Prop :=
  k = s2b "method" ∨ k = s2b "protocol" ∨ k = s2b "path" ∨ k = s2b "query_string" ∨
    (s2b "http_" <+: k ∧ ascii_lowercase k = k)

instance (bytes : List Nat) : Decidable (protoOK bytes) := by
  unfold protoOK; exact inferInstance

instance (bytes : List Nat) : Decidable (asteriskForm bytes) := by
  unfold asteriskForm; exact inferInstance

instance (bytes : List Nat) : Decidable (requestLineOK bytes) := by
  unfold requestLineOK; exact inferInstance

instance (env : Env) : Decidable (reservedPresent env) := by
  unfold reservedPresent; exact inferInstance

/-- The repository test `test_request_1`, evaluated on the embedding. -/
theorem test_request_1 :
    parse_request (s2b "GET /foo%20bar HTTP/1.0\r\nFoo: Bar\r\nA B C: D E F\r\n\r\n") =
    .ok { environ := [(s2b "method", s2b "get"), (s2b "protocol", s2b "http/1.0"),
            (s2b "path", s2b "/foo%20bar"), (s2b "query_string", []),
            (s2b "http_foo", s2b "Bar"), (s2b "http_a b c", s2b "D E F")],
          path := s2b "/foo bar" } := by
  decide

theorem lower_byte_idem (b : Nat) : lower_byte (lower_byte b) = lower_byte b := by
  unfold lower_byte
  by_cases h : 65 ≤ b ∧ b ≤ 90
  · rw [if_pos h, if_neg (by omega)]
  · rw [if_neg h, if_neg h]

theorem ascii_lowercase_idem (l : List Nat) :
    ascii_lowercase (ascii_lowercase l) = ascii_lowercase l := by
  induction l with
  | nil => rfl
  | cons b rest ih =>
    simp only [ascii_lowercase, List.map_cons] at ih ⊢
    rw [lower_byte_idem, ih]

theorem ascii_lowercase_append (a b : List Nat) :
    ascii_lowercase (a ++ b) = ascii_lowercase a ++ ascii_lowercase b := by
  simp [ascii_lowercase]

theorem mem_ascii_lowercase_32 (l : List Nat) (h : 32 ∈ l) :
    32 ∈ ascii_lowercase l := by
  exact List.mem_map.mpr ⟨32, h, by decide⟩

theorem count_byte_pos_mem (sep : Nat) (l : List Nat) (h : 0 < count_byte sep l) :
    sep ∈ l := by
  induction l with
  | nil => simp [count_byte] at h
  | cons b rest ih =>
    by_cases hb : b = sep
    · subst hb; exact List.mem_cons_self b rest
    · simp only [count_byte, if_neg hb, Nat.zero_add] at h
      exact List.mem_cons_of_mem b (ih h)

theorem count_byte_eq_zero (sep : Nat) (l : List Nat) (h : ¬ sep ∈ l) :
    count_byte sep l = 0 := by
  induction l with
  | nil => rfl
  | cons b rest ih =>
    simp only [List.mem_cons, not_or] at h
    have hbs : ¬ b = sep := fun hb => h.1 hb.symm
    simp only [count_byte, if_neg hbs, ih h.2]

theorem consHead_ne_nil (b : Nat) (xs : List (List Nat)) : consHead b xs ≠ [] := by
  cases xs <;> simp [consHead]

theorem split_bytes_on_ne_nil (sep k : Nat) (l : List Nat) :
    split_bytes_on sep k l ≠ [] := by
  induction l generalizing k with
  | nil => cases k <;> simp [split_bytes_on]
  | cons b rest ih =>
    cases k with
    | zero => simp [split_bytes_on]
    | succ k2 =>
      simp only [split_bytes_on]
      split
      · simp
      · exact consHead_ne_nil b _

theorem consHead_length (b : Nat) (xs : List (List Nat)) (h : xs ≠ []) :
    (consHead b xs).length = xs.length := by
  cases xs with
  | nil => exact absurd rfl h
  | cons p ps => simp [consHead]

theorem split_bytes_on_length (sep : Nat) (l : List Nat) (k : Nat) :
    (split_bytes_on sep k l).length = min (count_byte sep l) k + 1 := by
  induction l generalizing k with
  | nil => cases k <;> simp [split_bytes_on, count_byte]
  | cons b rest ih =>
    cases k with
    | zero => simp [split_bytes_on]
    | succ k2 =>
      simp only [split_bytes_on, count_byte]
      by_cases hb : b = sep
      · rw [if_pos hb, if_pos hb]
        simp only [List.length_cons, ih]
        omega
      · rw [if_neg hb, if_neg hb]
        rw [consHead_length b _ (split_bytes_on_ne_nil sep (k2 + 1) rest), ih]
        omega

theorem split_bytes_on_zero (sep : Nat) (l : List Nat) :
    split_bytes_on sep 0 l = [l] := by
  cases l <;> rfl

theorem split_bytes_on_no_sep (sep k : Nat) (l : List Nat) (h : ¬ sep ∈ l) :
    split_bytes_on sep k l = [l] := by
  induction l generalizing k with
  | nil => cases k <;> rfl
  | cons b rest ih =>
    simp only [List.mem_cons, not_or] at h
    have hbs : ¬ b = sep := fun hb => h.1 hb.symm
    cases k with
    | zero => rfl
    | succ k2 =>
      simp only [split_bytes_on]
      rw [if_neg hbs, ih k2.succ h.2]
      rfl

theorem split_bytes_on_first (sep k : Nat) (p q : List Nat) (h : ¬ sep ∈ p) :
    split_bytes_on sep (k + 1) (p ++ sep :: q) = p :: split_bytes_on sep k q := by
  induction p with
  | nil => simp [split_bytes_on]
  | cons a p2 ih =>
    simp only [List.mem_cons, not_or] at h
    have hbs : ¬ a = sep := fun hb => h.1 hb.symm
    simp only [List.cons_append, split_bytes_on, List.append_eq]
    rw [if_neg hbs, ih h.2]
    rfl

theorem split_bytes_on_getD_mem (sep : Nat) (l : List Nat) (k : Nat)
    (h : k + 1 ≤ count_byte sep l) :
    sep ∈ (split_bytes_on sep k l).getD k [] := by
  induction l generalizing k with
  | nil => simp [count_byte] at h
  | cons b rest ih =>
    cases k with
    | zero =>
      rw [split_bytes_on_zero]
      exact count_byte_pos_mem sep (b :: rest) h
    | succ k2 =>
      simp only [split_bytes_on]
      by_cases hb : b = sep
      · rw [if_pos hb]
        simp only [count_byte, if_pos hb] at h
        exact ih k2 (by omega)
      · rw [if_neg hb]
        simp only [count_byte, if_neg hb, Nat.zero_add] at h
        rcases hs : split_bytes_on sep (k2 + 1) rest with _ | ⟨p, ps⟩
        · exact absurd hs (split_bytes_on_ne_nil sep (k2 + 1) rest)
        · have := ih (k2 + 1) h
          rw [hs] at this
          simpa [consHead] using this

theorem exists_first_sep (sep : Nat) (l : List Nat) (h : sep ∈ l) :
    ∃ p q, l = p ++ sep :: q ∧ ¬ sep ∈ p := by
  induction l with
  | nil => cases h
  | cons b rest ih =>
    by_cases hb : b = sep
    · exact ⟨[], rest, by subst hb; rfl, by simp⟩
    · rcases List.mem_cons.mp h with h1 | h2
      · exact absurd h1.symm hb
      · rcases ih h2 with ⟨p, q, hpq, hnp⟩
        exact ⟨b :: p, q, by rw [hpq]; rfl, by
          simp only [List.mem_cons, not_or]
          exact ⟨fun hc => hb hc.symm, hnp⟩⟩

theorem envLookup_envInsert_self (env : Env) (k v : List Nat) :
    envLookup (envInsert env k v) k = some v := by
  induction env with
  | nil => simp [envInsert, envLookup]
  | cons kv rest ih =>
    rcases kv with ⟨k2, v2⟩
    by_cases hk : k2 = k
    · simp [envInsert, envLookup, hk]
    · simp [envInsert, envLookup, hk, ih]

theorem envLookup_envInsert_ne (env : Env) (k v k2 : List Nat) (h : k ≠ k2) :
    envLookup (envInsert env k v) k2 = envLookup env k2 := by
  induction env with
  | nil => simp [envInsert, envLookup, h]
  | cons kv rest ih =>
    rcases kv with ⟨k3, v3⟩
    by_cases hk : k3 = k
    · subst hk
      simp [envInsert, envLookup, h]
    · simp only [envInsert, if_neg hk, envLookup]
      by_cases hk2 : k3 = k2
      · simp [hk2]
      · simp [hk2, ih]

theorem envInsert_keys (env : Env) (k v : List Nat) (kv : List Nat × List Nat)
    (h : kv ∈ envInsert env k v) : kv ∈ env ∨ kv.1 = k := by
  induction env with
  | nil =>
    simp only [envInsert, List.mem_singleton] at h
    right; rw [h]
  | cons kv2 rest ih =>
    rcases kv2 with ⟨k2, v2⟩
    by_cases hk : k2 = k
    · simp only [envInsert, if_pos hk, List.mem_cons] at h
      rcases h with h1 | h2
      · right; rw [h1]
      · left; exact List.mem_cons_of_mem _ h2
    · simp only [envInsert, if_neg hk, List.mem_cons] at h
      rcases h with h1 | h2
      · left; rw [h1]; exact List.mem_cons_self _ _
      · rcases ih h2 with h3 | h4
        · left; exact List.mem_cons_of_mem _ h3
        · right; exact h4

theorem lstrip_decomp (l : List Nat) :
    ∃ w, l = w ++ lstrip l ∧ ∀ b ∈ w, wsB b = true := by
  induction l with
  | nil => exact ⟨[], rfl, by simp⟩
  | cons b rest ih =>
    by_cases hb : wsB b = true
    · rcases ih with ⟨w, hw, hall⟩
      refine ⟨b :: w, ?_, ?_⟩
      · simp only [lstrip, List.dropWhile_cons, hb, if_pos]
        rw [List.cons_append]
        exact congrArg (b :: ·) hw
      · intro c hc
        rcases List.mem_cons.mp hc with h1 | h2
        · rw [h1]; exact hb
        · exact hall c h2
    · refine ⟨[], ?_, by simp⟩
      simp [lstrip, List.dropWhile_cons, hb]

theorem lstrip_head_not_ws (l : List Nat) (b : Nat) (rest : List Nat)
    (h : lstrip l = b :: rest) : wsB b = false := by
  induction l with
  | nil => simp [lstrip] at h
  | cons a l2 ih =>
    by_cases ha : wsB a = true
    · simp only [lstrip, List.dropWhile_cons, ha, if_pos] at h
      exact ih h
    · have hl : lstrip (a :: l2) = a :: l2 := by
        simp [lstrip, List.dropWhile_cons, ha]
      rw [hl] at h
      obtain ⟨h1, h2⟩ := List.cons.inj h
      rw [← h1]
      simpa using ha

theorem percent_decode_no_escape (l : List Nat) (h : ¬ 37 ∈ l) :
    percent_decode l = l := by
  induction l with
  | nil => rfl
  | cons b rest ih =>
    simp only [List.mem_cons, not_or] at h
    have hb : ¬ b = 37 := fun hc => h.1 hc.symm
    have hr := ih h.2
    rcases rest with _ | ⟨c, rest2⟩
    · simp [percent_decode, hb]
    · rcases rest2 with _ | ⟨d, rest3⟩
      · simp [percent_decode, hb]
      · have hstep : percent_decode (b :: c :: d :: rest3) =
            b :: percent_decode (c :: d :: rest3) := by
          rw [percent_decode.eq_def]
          split
          · simp_all
          · simp_all
          · simp_all
        rw [hstep, hr]

theorem utf8_run_ascii (l : List Nat) (h : ∀ b ∈ l, b < 128) :
    utf8_run utf8Init l = l := by
  induction l with
  | nil => rfl
  | cons b rest ih =>
    have hb : b < 128 := h b (List.mem_cons_self b rest)
    have hstep : utf8_step utf8Init b = ([b], utf8Init) := by
      simp [utf8_step, utf8Init, utf8_lead, hb]
    rw [utf8_run, hstep]
    simp only
    rw [ih (fun c hc => h c (List.mem_cons_of_mem b hc))]
    rfl

theorem utf8_lossy_bytes_ascii (l : List Nat) (h : ∀ b ∈ l, b < 128) :
    utf8_lossy_bytes l = l := utf8_run_ascii l h

theorem process_headers_skip (env : Env) (ls : List (List Nat)) :
    process_headers env ([] :: ls) = process_headers env ls := by
  simp [process_headers]

theorem process_headers_step (env : Env) (name value : List Nat)
    (rest : List (List Nat)) (h : ¬ 58 ∈ name) :
    process_headers env ((name ++ 58 :: value) :: rest) =
      process_headers
        (envInsert env (ascii_lowercase (s2b "http_" ++ name)) (lstrip value)) rest := by
  have hsplit : split_bytes_on 58 1 (name ++ 58 :: value) = [name, value] := by
    rw [show (1 : Nat) = 0 + 1 from rfl, split_bytes_on_first 58 0 name value h,
      split_bytes_on_zero]
  have hne : ¬ (name ++ 58 :: value).length = 0 := by simp
  simp only [process_headers, if_neg hne, hsplit]
  simp [List.getD]

theorem process_headers_nocolon (env : Env) (line : List Nat)
    (rest : List (List Nat)) (hl : line ≠ []) (hc : ¬ 58 ∈ line) :
    process_headers env (line :: rest) = .error .MalformedHeaderLine := by
  have hne : ¬ line.length = 0 := by simpa [List.length_eq_zero] using hl
  have hsplit := split_bytes_on_no_sep 58 1 line hc
  simp only [process_headers, if_neg hne, hsplit]
  simp

theorem process_headers_colon_step (env : Env) (line : List Nat)
    (rest : List (List Nat)) (hc : 58 ∈ line) :
    ∃ p q, line = p ++ 58 :: q ∧ ¬ 58 ∈ p ∧
      process_headers env (line :: rest) =
        process_headers
          (envInsert env (ascii_lowercase (s2b "http_" ++ p)) (lstrip q)) rest := by
  rcases exists_first_sep 58 line hc with ⟨p, q, hpq, hnp⟩
  exact ⟨p, q, hpq, hnp, by rw [hpq]; exact process_headers_step env p q rest hnp⟩

theorem process_headers_error (ls : List (List Nat)) :
    ∀ env e, process_headers env ls = .error e → e = .MalformedHeaderLine := by
  induction ls with
  | nil => intro env e h; simp [process_headers] at h
  | cons line rest ih =>
    intro env e h
    by_cases hl : line = []
    · subst hl; rw [process_headers_skip] at h; exact ih _ _ h
    · by_cases hc : 58 ∈ line
      · rcases process_headers_colon_step env line rest hc with ⟨p, q, _, _, hstep⟩
        rw [hstep] at h; exact ih _ _ h
      · rw [process_headers_nocolon env line rest hl hc] at h
        exact (Except.error.inj h).symm

theorem process_headers_bad (ls : List (List Nat)) :
    ∀ env, (∃ l ∈ ls, l ≠ [] ∧ ¬ 58 ∈ l) →
      process_headers env ls = .error .MalformedHeaderLine := by
  induction ls with
  | nil => rintro env ⟨l, hl, _⟩; simp at hl
  | cons line rest ih =>
    rintro env ⟨l, hmem, hlne, hlc⟩
    rcases List.mem_cons.mp hmem with rfl | hmem2
    · exact process_headers_nocolon env l rest hlne hlc
    · by_cases hl : line = []
      · subst hl; rw [process_headers_skip]; exact ih env ⟨l, hmem2, hlne, hlc⟩
      · by_cases hc : 58 ∈ line
        · rcases process_headers_colon_step env line rest hc with ⟨p, q, _, _, hstep⟩
          rw [hstep]; exact ih _ ⟨l, hmem2, hlne, hlc⟩
        · exact process_headers_nocolon env line rest hl hc

theorem process_headers_ok (ls : List (List Nat)) :
    ∀ env, (∀ l ∈ ls, l = [] ∨ 58 ∈ l) →
      ∃ env2, process_headers env ls = .ok env2 := by
  induction ls with
  | nil => intro env _; exact ⟨env, rfl⟩
  | cons line rest ih =>
    intro env hall
    have htail : ∀ l ∈ rest, l = [] ∨ 58 ∈ l :=
      fun l hm => hall l (List.mem_cons_of_mem _ hm)
    rcases hall line (List.mem_cons_self _ _) with hl | hc
    · subst hl; rw [process_headers_skip]; exact ih env htail
    · rcases process_headers_colon_step env line rest hc with ⟨p, q, _, _, hstep⟩
      rw [hstep]; exact ih _ htail

theorem http_key_isPrefix (p : List Nat) :
    s2b "http_" <+: ascii_lowercase (s2b "http_" ++ p) := by
  rw [ascii_lowercase_append]
  rw [show ascii_lowercase (s2b "http_") = s2b "http_" from by decide]
  exact ⟨ascii_lowercase p, rfl⟩

theorem process_headers_preserve (ls : List (List Nat)) :
    ∀ env env2 k, ¬ (s2b "http_" <+: k) →
      process_headers env ls = .ok env2 → envLookup env2 k = envLookup env k := by
  induction ls with
  | nil =>
    intro env env2 k _ h
    simp only [process_headers] at h
    rw [← Except.ok.inj h]
  | cons line rest ih =>
    intro env env2 k hk h
    by_cases hl : line = []
    · subst hl; rw [process_headers_skip] at h; exact ih env env2 k hk h
    · by_cases hc : 58 ∈ line
      · rcases process_headers_colon_step env line rest hc with ⟨p, q, _, _, hstep⟩
        rw [hstep] at h
        rw [ih _ env2 k hk h]
        exact envLookup_envInsert_ne env _ _ k
          (fun heq => hk (heq ▸ http_key_isPrefix p))
      · rw [process_headers_nocolon env line rest hl hc] at h
        exact absurd h (by simp)

theorem process_headers_keys (ls : List (List Nat)) :
    ∀ env env2, (∀ kv ∈ env, KeyOK kv.1) →
      process_headers env ls = .ok env2 → ∀ kv ∈ env2, KeyOK kv.1 := by
  induction ls with
  | nil =>
    intro env env2 hbase h
    simp only [process_headers] at h
    rw [← Except.ok.inj h]
    exact hbase
  | cons line rest ih =>
    intro env env2 hbase h
    by_cases hl : line = []
    · subst hl; rw [process_headers_skip] at h; exact ih env env2 hbase h
    · by_cases hc : 58 ∈ line
      · rcases process_headers_colon_step env line rest hc with ⟨p, q, _, _, hstep⟩
        rw [hstep] at h
        refine ih _ env2 ?_ h
        intro kv hkv
        rcases envInsert_keys env _ _ kv hkv with hmem | hkey
        · exact hbase kv hmem
        · right; right; right; right
          rw [hkey]
          exact ⟨http_key_isPrefix p, ascii_lowercase_idem _⟩
      · rw [process_headers_nocolon env line rest hl hc] at h
        exact absurd h (by simp)

theorem target_resolve_asterisk (env : Env) :
    target_resolve env (s2b "options") (s2b "*") =
      .ok (envInsert (envInsert env (s2b "path") (s2b "*")) (s2b "query_string") []) := by
  simp [target_resolve]

theorem target_resolve_noslash (env : Env) (m p : List Nat)
    (h1 : ¬ (m = s2b "options" ∧ p = s2b "*")) (h2 : p.headD 0 ≠ 47) :
    target_resolve env m p = .error .MissingLeadingSlash := by
  simp only [target_resolve]
  rw [if_neg h1, if_pos h2]

theorem target_resolve_query (env : Env) (m p q : List Nat)
    (h1 : ¬ (m = s2b "options" ∧ (p ++ 63 :: q) = s2b "*"))
    (h2 : (p ++ 63 :: q).headD 0 = 47) (h3 : ¬ 63 ∈ p) :
    target_resolve env m (p ++ 63 :: q) =
      .ok (envInsert (envInsert env (s2b "path") p) (s2b "query_string") q) := by
  simp only [target_resolve]
  rw [if_neg h1, if_neg (fun hC => hC h2)]
  rw [show (1 : Nat) = 0 + 1 from rfl, split_bytes_on_first 63 0 p q h3,
    split_bytes_on_zero]
  simp [List.getD]

theorem target_resolve_noquery (env : Env) (m p : List Nat)
    (h1 : ¬ (m = s2b "options" ∧ p = s2b "*"))
    (h2 : p.headD 0 = 47) (h3 : ¬ 63 ∈ p) :
    target_resolve env m p =
      .ok (envInsert (envInsert env (s2b "path") p) (s2b "query_string") []) := by
  simp only [target_resolve]
  rw [if_neg h1, if_neg (fun hC => hC h2), split_bytes_on_no_sep 63 1 p h3]
  simp

theorem target_resolve_error (env : Env) (m p : List Nat) (e : Panic)
    (h : target_resolve env m p = .error e) : e = .MissingLeadingSlash := by
  simp only [target_resolve] at h
  by_cases c1 : m = s2b "options" ∧ p = s2b "*"
  · rw [if_pos c1] at h; exact absurd h (by simp)
  · rw [if_neg c1] at h
    by_cases c2 : p.headD 0 ≠ 47
    · rw [if_pos c2] at h; exact (Except.error.inj h).symm
    · rw [if_neg c2] at h
      by_cases c3 : (split_bytes_on 63 1 p).length > 1
      · rw [if_pos c3] at h; exact absurd h (by simp)
      · rw [if_neg c3] at h; exact absurd h (by simp)

theorem target_resolve_ok_exists (env : Env) (m p : List Nat)
    (h : (m = s2b "options" ∧ p = s2b "*") ∨ p.headD 0 = 47) :
    ∃ env1, target_resolve env m p = .ok env1 := by
  by_cases c1 : m = s2b "options" ∧ p = s2b "*"
  · obtain ⟨hm, hp⟩ := c1
    subst hm; subst hp
    exact ⟨_, target_resolve_asterisk env⟩
  · have h47 := h.resolve_left c1
    by_cases c2 : 63 ∈ p
    · rcases exists_first_sep 63 p c2 with ⟨p1, q, hpq, hnp⟩
      subst hpq
      exact ⟨_, target_resolve_query env m p1 q c1 h47 hnp⟩
    · exact ⟨_, target_resolve_noquery env m p c1 h47 c2⟩

theorem parse_request_unfold (bytes : List Nat) :
    parse_request bytes =
      if (requestParts bytes).length ≠ 3 then .error .MalformedRequestLine
      else if protoTok bytes ≠ s2b "http/1.0" ∧ protoTok bytes ≠ s2b "http/1.1" then
        .error .UnsupportedProtocolVersion
      else if (pathTok bytes).length = 0 then .error .EmptyPath
      else
        match target_resolve (env0 bytes) (methodTok bytes) (pathTok bytes) with
        | .error e => .error e
        | .ok env1 =>
          match process_headers env1 (headerLines bytes) with
          | .error e => .error e
          | .ok env2 =>
            .ok ⟨env2, utf8_lossy_bytes
              (percent_decode ((envLookup env1 (s2b "path")).getD []))⟩ := by
  rfl

theorem parse_gate_mrl (bytes : List Nat) (h : (requestParts bytes).length ≠ 3) :
    parse_request bytes = .error .MalformedRequestLine := by
  rw [parse_request_unfold, if_pos h]

theorem parse_gate_upv (bytes : List Nat) (h3 : (requestParts bytes).length = 3)
    (hp : ¬ protoOK bytes) :
    parse_request bytes = .error .UnsupportedProtocolVersion := by
  simp only [protoOK] at hp
  push_neg at hp
  rw [parse_request_unfold, if_neg (not_not_intro h3), if_pos hp]

theorem parse_gate_empty (bytes : List Nat) (h3 : (requestParts bytes).length = 3)
    (hp : protoOK bytes) (hpe : pathTok bytes = []) :
    parse_request bytes = .error .EmptyPath := by
  have hc2 : ¬ (protoTok bytes ≠ s2b "http/1.0" ∧ protoTok bytes ≠ s2b "http/1.1") :=
    fun ⟨c1, c2⟩ => hp.elim c1 c2
  rw [parse_request_unfold, if_neg (not_not_intro h3), if_neg hc2, if_pos (by rw [hpe]; rfl)]

theorem parse_request_eval (bytes : List Nat) (h3 : (requestParts bytes).length = 3)
    (hp : protoOK bytes) (hne : pathTok bytes ≠ []) :
    parse_request bytes =
      (match target_resolve (env0 bytes) (methodTok bytes) (pathTok bytes) with
      | .error e => .error e
      | .ok env1 =>
        match process_headers env1 (headerLines bytes) with
        | .error e => .error e
        | .ok env2 =>
          .ok ⟨env2, utf8_lossy_bytes
            (percent_decode ((envLookup env1 (s2b "path")).getD []))⟩) := by
  have hc2 : ¬ (protoTok bytes ≠ s2b "http/1.0" ∧ protoTok bytes ≠ s2b "http/1.1") :=
    fun ⟨c1, c2⟩ => hp.elim c1 c2
  have hc3 : ¬ (pathTok bytes).length = 0 := by
    simpa [List.length_eq_zero] using hne
  rw [parse_request_unfold, if_neg (not_not_intro h3), if_neg hc2, if_neg hc3]

theorem parse_request_ok_inv (bytes : List Nat) (r : WebRequest)
    (h : parse_request bytes = .ok r) :
    (requestParts bytes).length = 3 ∧ protoOK bytes ∧ pathTok bytes ≠ [] ∧
    ∃ env1 env2,
      target_resolve (env0 bytes) (methodTok bytes) (pathTok bytes) = .ok env1 ∧
      process_headers env1 (headerLines bytes) = .ok env2 ∧
      r.environ = env2 ∧
      r.path = utf8_lossy_bytes (percent_decode ((envLookup env1 (s2b "path")).getD [])) := by
  by_cases h3 : (requestParts bytes).length = 3
  · by_cases hp : protoOK bytes
    · by_cases hne : pathTok bytes = []
      · rw [parse_gate_empty bytes h3 hp hne] at h
        exact absurd h (by simp)
      · rw [parse_request_eval bytes h3 hp hne] at h
        obtain ⟨env1, ht⟩ : ∃ env1,
            target_resolve (env0 bytes) (methodTok bytes) (pathTok bytes) = .ok env1 := by
          rcases htr : target_resolve (env0 bytes) (methodTok bytes) (pathTok bytes)
            with e | env1
          · rw [htr] at h
            exact absurd h (by simp)
          · exact ⟨env1, rfl⟩
        rw [ht] at h
        dsimp only at h
        obtain ⟨env2, hph⟩ : ∃ env2,
            process_headers env1 (headerLines bytes) = .ok env2 := by
          rcases hpr : process_headers env1 (headerLines bytes) with e2 | env2
          · rw [hpr] at h
            exact absurd h (by simp)
          · exact ⟨env2, rfl⟩
        rw [hph] at h
        dsimp only at h
        have hr := Except.ok.inj h
        exact ⟨h3, hp, hne, env1, env2, ht, hph, by rw [← hr], by rw [← hr]⟩
    · rw [parse_gate_upv bytes h3 hp] at h
      exact absurd h (by simp)
  · rw [parse_gate_mrl bytes h3] at h
    exact absurd h (by simp)

theorem env0_eq (bytes : List Nat) :
    env0 bytes = [(s2b "method", methodTok bytes), (s2b "protocol", protoTok bytes)] := by
  unfold env0
  simp only [envInsert, if_neg (show ¬ s2b "method" = s2b "protocol" from by decide)]

theorem env0_lookup_method (bytes : List Nat) :
    envLookup (env0 bytes) (s2b "method") = some (methodTok bytes) := by
  rw [env0_eq]
  simp [envLookup]

theorem env0_lookup_protocol (bytes : List Nat) :
    envLookup (env0 bytes) (s2b "protocol") = some (protoTok bytes) := by
  rw [env0_eq]
  simp [envLookup, show ¬ s2b "method" = s2b "protocol" from by decide]

theorem env0_keys (bytes : List Nat) : ∀ kv ∈ env0 bytes, KeyOK kv.1 := by
  rw [env0_eq]
  intro kv hkv
  rcases List.mem_cons.mp hkv with h1 | h2
  · left; rw [h1]
  · rcases List.mem_cons.mp h2 with h3 | h4
    · right; left; rw [h3]
    · simp at h4

theorem envLookup_path_qs (env : Env) (pv qv : List Nat) :
    envLookup (envInsert (envInsert env (s2b "path") pv) (s2b "query_string") qv)
        (s2b "path") = some pv ∧
      envLookup (envInsert (envInsert env (s2b "path") pv) (s2b "query_string") qv)
        (s2b "query_string") = some qv ∧
      ∀ k, ¬ k = s2b "path" → ¬ k = s2b "query_string" →
        envLookup (envInsert (envInsert env (s2b "path") pv) (s2b "query_string") qv) k =
          envLookup env k := by
  refine ⟨?_, envLookup_envInsert_self _ _ _, ?_⟩
  · rw [envLookup_envInsert_ne _ _ _ _ (by decide), envLookup_envInsert_self]
  · intro k hk1 hk2
    rw [envLookup_envInsert_ne _ _ _ _ (fun h => hk2 h.symm),
      envLookup_envInsert_ne _ _ _ _ (fun h => hk1 h.symm)]

theorem target_resolve_shape (env : Env) (m p : List Nat) (env1 : Env)
    (h : target_resolve env m p = .ok env1) :
    ∃ pv qv, env1 = envInsert (envInsert env (s2b "path") pv) (s2b "query_string") qv := by
  simp only [target_resolve] at h
  by_cases c1 : m = s2b "options" ∧ p = s2b "*"
  · rw [if_pos c1] at h
    exact ⟨p, [], (Except.ok.inj h).symm⟩
  · rw [if_neg c1] at h
    by_cases c2 : p.headD 0 ≠ 47
    · rw [if_pos c2] at h
      exact absurd h (by simp)
    · rw [if_neg c2] at h
      by_cases c3 : (split_bytes_on 63 1 p).length > 1
      · rw [if_pos c3] at h
        exact ⟨_, _, (Except.ok.inj h).symm⟩
      · rw [if_neg c3] at h
        exact ⟨p, [], (Except.ok.inj h).symm⟩

theorem parse_never_mrl (bytes : List Nat) (h3 : (requestParts bytes).length = 3) :
    parse_request bytes ≠ .error .MalformedRequestLine := by
  by_cases hp : protoOK bytes
  · by_cases hne : pathTok bytes = []
    · rw [parse_gate_empty bytes h3 hp hne]
      simp
    · rw [parse_request_eval bytes h3 hp hne]
      rcases ht : target_resolve (env0 bytes) (methodTok bytes) (pathTok bytes)
        with e | env1
      · have := target_resolve_error _ _ _ _ ht
        subst this
        simp
      · dsimp only
        rcases hph : process_headers env1 (headerLines bytes) with e2 | env2
        · have := process_headers_error _ _ _ hph
          subst this
          simp
        · simp
  · rw [parse_gate_upv bytes h3 hp]
    simp

theorem requestParts_length_eq (bytes : List Nat) :
    (requestParts bytes).length = min (count_byte 32 (line0 bytes)) 2 + 1 := by
  unfold requestParts
  exact split_bytes_on_length 32 (line0 bytes) 2

theorem parse_many_spaces_upv (bytes : List Nat)
    (h : 3 ≤ count_byte 32 (line0 bytes)) :
    parse_request bytes = .error .UnsupportedProtocolVersion := by
  have h3 : (requestParts bytes).length = 3 := by
    rw [requestParts_length_eq]
    omega
  have hmem : 32 ∈ (requestParts bytes).getD 2 [] := by
    unfold requestParts
    exact split_bytes_on_getD_mem 32 (line0 bytes) 2 (by omega)
  have hmem2 : 32 ∈ protoTok bytes := mem_ascii_lowercase_32 _ hmem
  refine parse_gate_upv bytes h3 ?_
  rintro (hv | hv) <;> rw [hv] at hmem2 <;> exact absurd hmem2 (by decide)

theorem parse_gate_mls (bytes : List Nat) (h3 : (requestParts bytes).length = 3)
    (hp : protoOK bytes) (hne : pathTok bytes ≠ []) (hnast : ¬ asteriskForm bytes)
    (h47 : (pathTok bytes).headD 0 ≠ 47) :
    parse_request bytes = .error .MissingLeadingSlash := by
  rw [parse_request_eval bytes h3 hp hne,
    target_resolve_noslash (env0 bytes) _ _ (by simpa [asteriskForm] using hnast) h47]

theorem parse_gate_mhl (bytes : List Nat) (hok : requestLineOK bytes)
    (hbad : ∃ l ∈ headerLines bytes, l ≠ [] ∧ ¬ 58 ∈ l) :
    parse_request bytes = .error .MalformedHeaderLine := by
  obtain ⟨h3, hp, hne, hor⟩ := hok
  rw [parse_request_eval bytes h3 hp hne]
  obtain ⟨env1, ht⟩ := target_resolve_ok_exists (env0 bytes) (methodTok bytes)
    (pathTok bytes) (by
      rcases hor with ha | h47
      · exact Or.inl ha
      · exact Or.inr h47)
  rw [ht]
  dsimp only
  rw [process_headers_bad (headerLines bytes) env1 hbad]

theorem first_sep_unique (sep : Nat) (p1 q1 p2 q2 : List Nat)
    (h : p1 ++ sep :: q1 = p2 ++ sep :: q2) (h1 : ¬ sep ∈ p1) (h2 : ¬ sep ∈ p2) :
    p1 = p2 ∧ q1 = q2 := by
  induction p1 generalizing p2 with
  | nil =>
    rcases p2 with _ | ⟨b, p3⟩
    · obtain ⟨-, hq⟩ := List.cons.inj h
      exact ⟨rfl, hq⟩
    · obtain ⟨hb, -⟩ := List.cons.inj h
      exact absurd (hb ▸ List.mem_cons_self b p3) h2
  | cons a p1t ih =>
    rcases p2 with _ | ⟨b, p3⟩
    · obtain ⟨hb, -⟩ := List.cons.inj h
      exact absurd (hb ▸ List.mem_cons_self a p1t) h1
    · obtain ⟨hb, hrest⟩ := List.cons.inj h
      have h1t : ¬ sep ∈ p1t := fun hm => h1 (List.mem_cons_of_mem a hm)
      have h2t : ¬ sep ∈ p3 := fun hm => h2 (List.mem_cons_of_mem b hm)
      obtain ⟨hp, hq⟩ := ih p3 hrest h1t h2t
      exact ⟨by rw [hb, hp], hq⟩

theorem parse_ok_env1 (bytes : List Nat) (r : WebRequest)
    (h : parse_request bytes = .ok r) :
    ∃ env1,
      target_resolve (env0 bytes) (methodTok bytes) (pathTok bytes) = .ok env1 ∧
      (∀ k, ¬ (s2b "http_" <+: k) → envLookup r.environ k = envLookup env1 k) ∧
      r.path = utf8_lossy_bytes (percent_decode ((envLookup env1 (s2b "path")).getD [])) := by
  obtain ⟨h3, hp, hne, env1, env2, ht, hph, henv, hpath⟩ := parse_request_ok_inv bytes r h
  refine ⟨env1, ht, ?_, hpath⟩
  intro k hk
  rw [henv]
  exact process_headers_preserve _ _ _ _ hk hph

theorem parse_ok_reserved (bytes : List Nat) (r : WebRequest)
    (h : parse_request bytes = .ok r) : reservedPresent r.environ := by
  obtain ⟨env1, ht, hpres, hpath⟩ := parse_ok_env1 bytes r h
  obtain ⟨pv, qv, hshape⟩ := target_resolve_shape _ _ _ _ ht
  obtain ⟨hpl, hql, hother⟩ := envLookup_path_qs (env0 bytes) pv qv
  rw [← hshape] at hpl hql hother
  have hm : envLookup env1 (s2b "method") = some (methodTok bytes) := by
    rw [hother _ (by decide) (by decide), env0_lookup_method]
  have hprot : envLookup env1 (s2b "protocol") = some (protoTok bytes) := by
    rw [hother _ (by decide) (by decide), env0_lookup_protocol]
  refine ⟨?_, ?_, ?_, ?_⟩
  · rw [hpres _ (by decide), hm]; rfl
  · rw [hpres _ (by decide), hprot]; rfl
  · rw [hpres _ (by decide), hpl]; rfl
  · rw [hpres _ (by decide), hql]; rfl

theorem unreservedByte_lt_128 (b : Nat) (h : unreservedByte b = true) : b < 128 := by
  simp only [unreservedByte, Bool.or_eq_true, Bool.and_eq_true, decide_eq_true_eq] at h
  rcases h with ((((h | h) | h) | h) | h) <;> omega

/-- C1 counterexample: at the concrete input `"BADLINE\r\n\r\n"` the parse
reaches the `assert_eq!(request_parts.len(), 3)` site and aborts by panic
(modelled as the `Except.error` outcome).  The Rust signature is
`fn parse_request(&[u8]) -> WebRequest`: there is no error value returned
to the caller, contradicting the claim that a violated gate returns a
distinct, inspectable error value without aborting. -/
theorem c1_counterexample :
    parse_request (s2b "BADLINE\r\n\r\n") = .error .MalformedRequestLine := by
  decide

/-- C1 amended: every gate violation makes `parse_request` panic with the
distinct panic of that gate (request line not 3 parts, unrecognized
protocol, empty target, origin-form target without a leading slash, header
line without a colon), rather than returning an error value, and a
successful parse always carries all four reserved keys (no partially
populated output is ever produced). -/
theorem c1_gate_panics (bytes : List Nat) :
    ((requestParts bytes).length ≠ 3 →
      parse_request bytes = .error .MalformedRequestLine) ∧
    ((requestParts bytes).length = 3 → ¬ protoOK bytes →
      parse_request bytes = .error .UnsupportedProtocolVersion) ∧
    ((requestParts bytes).length = 3 → protoOK bytes → pathTok bytes = [] →
      parse_request bytes = .error .EmptyPath) ∧
    ((requestParts bytes).length = 3 → protoOK bytes → pathTok bytes ≠ [] →
      ¬ asteriskForm bytes → (pathTok bytes).headD 0 ≠ 47 →
      parse_request bytes = .error .MissingLeadingSlash) ∧
    (requestLineOK bytes → (∃ l ∈ headerLines bytes, l ≠ [] ∧ ¬ 58 ∈ l) →
      parse_request bytes = .error .MalformedHeaderLine) ∧
    (∀ r, parse_request bytes = .ok r → reservedPresent r.environ) :=
  ⟨parse_gate_mrl bytes, parse_gate_upv bytes, parse_gate_empty bytes,
    parse_gate_mls bytes, parse_gate_mhl bytes,
    fun r h => parse_ok_reserved bytes r h⟩

/-- C1 witness: the first gate of the amended statement applied at the
concrete input `"GET /\r\n\r\n"` (a 2-token request line). -/
theorem c1_witness :
    parse_request (s2b "GET /\r\n\r\n") = .error .MalformedRequestLine :=
  (c1_gate_panics (s2b "GET /\r\n\r\n")).1 (by decide)

/-- C2 counterexample: `"GET / HTTP/1.1 extra\r\n\r\n"` has 4
space-separated tokens (3 spaces on line 0), yet the parse does not fail
with `MalformedRequestLine`: the bounded split (limit 2) folds the excess
into the third part, the 3-part assertion passes, and the parse fails with
`UnsupportedProtocolVersion` instead. -/
theorem c2_counterexample :
    count_byte 32 (line0 (s2b "GET / HTTP/1.1 extra\r\n\r\n")) = 3 ∧
    parse_request (s2b "GET / HTTP/1.1 extra\r\n\r\n") =
      .error .UnsupportedProtocolVersion ∧
    parse_request (s2b "GET / HTTP/1.1 extra\r\n\r\n") ≠
      .error .MalformedRequestLine := by
  decide

/-- C2 amended: the parse fails with `MalformedRequestLine` exactly when
line 0 carries fewer than 2 space bytes (fewer than 3 parts under the
2-bounded split); a request line with more than 3 tokens (at least 3 space
bytes) still yields exactly 3 parts — the excess stays inside the protocol
part — so it passes the request-line gate and fails later with
`UnsupportedProtocolVersion`, since a protocol token containing a space
can never equal `http/1.0` or `http/1.1`. -/
theorem c2_request_line_tokens (bytes : List Nat) :
    (parse_request bytes = .error .MalformedRequestLine ↔
      count_byte 32 (line0 bytes) < 2) ∧
    (3 ≤ count_byte 32 (line0 bytes) →
      parse_request bytes = .error .UnsupportedProtocolVersion) := by
  constructor
  · constructor
    · intro h
      by_contra hc
      push_neg at hc
      have h3 : (requestParts bytes).length = 3 := by
        rw [requestParts_length_eq]
        omega
      exact parse_never_mrl bytes h3 h
    · intro h
      apply parse_gate_mrl
      rw [requestParts_length_eq]
      omega
  · exact parse_many_spaces_upv bytes

/-- C2 witness: both directions of the amended statement at concrete
inputs: a 4-token request line fails with `UnsupportedProtocolVersion`, a
1-token request line fails with `MalformedRequestLine`. -/
theorem c2_witness :
    parse_request (s2b "A B C D\r\n\r\n") = .error .UnsupportedProtocolVersion ∧
    parse_request (s2b "BAD\r\n\r\n") = .error .MalformedRequestLine :=
  ⟨(c2_request_line_tokens (s2b "A B C D\r\n\r\n")).2 (by decide),
   ((c2_request_line_tokens (s2b "BAD\r\n\r\n")).1).mpr (by decide)⟩

/-- C3: on every successful parse the `method` and `protocol` fields hold
the ASCII-lowercased method and protocol tokens and the lowercased
protocol is exactly `http/1.0` or `http/1.1`; and whenever the request
line has 3 parts but the lowercased protocol token is anything else, the
parse fails with `UnsupportedProtocolVersion`. -/
theorem c3_protocol (bytes : List Nat) :
    (∀ r, parse_request bytes = .ok r →
      envLookup r.environ (s2b "method") =
        some (ascii_lowercase ((requestParts bytes).getD 0 [])) ∧
      envLookup r.environ (s2b "protocol") =
        some (ascii_lowercase ((requestParts bytes).getD 2 [])) ∧
      (ascii_lowercase ((requestParts bytes).getD 2 []) = s2b "http/1.0" ∨
       ascii_lowercase ((requestParts bytes).getD 2 []) = s2b "http/1.1")) ∧
    ((requestParts bytes).length = 3 → ¬ protoOK bytes →
      parse_request bytes = .error .UnsupportedProtocolVersion) := by
  constructor
  · intro r h
    obtain ⟨env1, ht, hpres, hpath⟩ := parse_ok_env1 bytes r h
    obtain ⟨pv, qv, hshape⟩ := target_resolve_shape _ _ _ _ ht
    obtain ⟨hpl, hql, hother⟩ := envLookup_path_qs (env0 bytes) pv qv
    rw [← hshape] at hother
    have hprotoOK : protoOK bytes := (parse_request_ok_inv bytes r h).2.1
    refine ⟨?_, ?_, hprotoOK⟩
    · rw [hpres _ (by decide), hother _ (by decide) (by decide), env0_lookup_method]
      rfl
    · rw [hpres _ (by decide), hother _ (by decide) (by decide), env0_lookup_protocol]
      rfl
  · exact parse_gate_upv bytes

/-- C3 witness: the failure side at `"GET / HTTP/9.9\r\n\r\n"` and the
success side at `"GET / HTTP/1.1\r\n\r\n"`. -/
theorem c3_witness :
    parse_request (s2b "GET / HTTP/9.9\r\n\r\n") = .error .UnsupportedProtocolVersion ∧
    envLookup [(s2b "method", s2b "get"), (s2b "protocol", s2b "http/1.1"),
      (s2b "path", s2b "/"), (s2b "query_string", [])] (s2b "method") =
      some (s2b "get") := by
  refine ⟨(c3_protocol (s2b "GET / HTTP/9.9\r\n\r\n")).2 (by decide) (by decide), ?_⟩
  have h := ((c3_protocol (s2b "GET / HTTP/1.1\r\n\r\n")).1
    ⟨[(s2b "method", s2b "get"), (s2b "protocol", s2b "http/1.1"),
      (s2b "path", s2b "/"), (s2b "query_string", [])], s2b "/"⟩ (by decide)).1
  exact h.trans (by decide)

/-- C4 counterexample: the empty request-target (input
`"GET  HTTP/1.0\r\n\r\n"`, two spaces) is a non-asterisk-form target that
does not begin with a slash, yet the parse does not fail with
`MissingLeadingSlash`: the `assert!(path.len() > 0)` site fires first. -/
theorem c4_counterexample :
    parse_request (s2b "GET  HTTP/1.0\r\n\r\n") = .error .EmptyPath ∧
    parse_request (s2b "GET  HTTP/1.0\r\n\r\n") ≠ .error .MissingLeadingSlash := by
  decide

/-- C4 amended: with a 3-part request line and a recognized protocol — if
the lowercased method is `options`, the target is exactly `*` and every
nonempty header line contains a colon, the parse succeeds with
`path = "*"` and `query_string = ""`; every nonempty non-asterisk-form
target not beginning with a slash (which covers target `*` under any other
method) fails with `MissingLeadingSlash`; an empty target instead fails
the path-nonempty assertion. -/
theorem c4_target_forms (bytes : List Nat) :
    ((requestParts bytes).length = 3 → protoOK bytes → asteriskForm bytes →
      (∀ l ∈ headerLines bytes, l = [] ∨ 58 ∈ l) →
      okLookup (parse_request bytes) (s2b "path") = some (s2b "*") ∧
      okLookup (parse_request bytes) (s2b "query_string") = some []) ∧
    ((requestParts bytes).length = 3 → protoOK bytes → pathTok bytes ≠ [] →
      ¬ asteriskForm bytes → (pathTok bytes).headD 0 ≠ 47 →
      parse_request bytes = .error .MissingLeadingSlash) ∧
    ((requestParts bytes).length = 3 → protoOK bytes → pathTok bytes = [] →
      parse_request bytes = .error .EmptyPath) := by
  refine ⟨?_, parse_gate_mls bytes, parse_gate_empty bytes⟩
  intro h3 hp ha hheaders
  have hne : pathTok bytes ≠ [] := by
    rw [ha.2]
    decide
  have ht : target_resolve (env0 bytes) (methodTok bytes) (pathTok bytes) =
      .ok (envInsert (envInsert (env0 bytes) (s2b "path") (s2b "*"))
        (s2b "query_string") []) := by
    rw [ha.1, ha.2]
    exact target_resolve_asterisk (env0 bytes)
  obtain ⟨env2, hph⟩ := process_headers_ok (headerLines bytes)
    (envInsert (envInsert (env0 bytes) (s2b "path") (s2b "*")) (s2b "query_string") [])
    hheaders
  have hparse : parse_request bytes = .ok
      ⟨env2, utf8_lossy_bytes (percent_decode ((envLookup
        (envInsert (envInsert (env0 bytes) (s2b "path") (s2b "*"))
          (s2b "query_string") []) (s2b "path")).getD []))⟩ := by
    rw [parse_request_eval bytes h3 hp hne, ht]
    dsimp only
    rw [hph]
  obtain ⟨hpl, hql, -⟩ := envLookup_path_qs (env0 bytes) (s2b "*") []
  have hpp := process_headers_preserve (headerLines bytes) _ env2 (s2b "path")
    (by decide) hph
  have hqq := process_headers_preserve (headerLines bytes) _ env2 (s2b "query_string")
    (by decide) hph
  rw [hparse]
  simp only [okLookup]
  exact ⟨hpp.trans hpl, hqq.trans hql⟩

/-- C4 witness: the asterisk form succeeds for `OPTIONS` and the same
target fails with `MissingLeadingSlash` for `GET`. -/
theorem c4_witness :
    okLookup (parse_request (s2b "OPTIONS * HTTP/1.1\r\n\r\n")) (s2b "path") =
      some (s2b "*") ∧
    okLookup (parse_request (s2b "OPTIONS * HTTP/1.1\r\n\r\n")) (s2b "query_string") =
      some [] ∧
    parse_request (s2b "GET * HTTP/1.1\r\n\r\n") = .error .MissingLeadingSlash := by
  refine ⟨?_, ?_, ?_⟩
  · exact ((c4_target_forms (s2b "OPTIONS * HTTP/1.1\r\n\r\n")).1
      (by decide) (by decide) (by decide) (by decide)).1
  · exact ((c4_target_forms (s2b "OPTIONS * HTTP/1.1\r\n\r\n")).1
      (by decide) (by decide) (by decide) (by decide)).2
  · exact (c4_target_forms (s2b "GET * HTTP/1.1\r\n\r\n")).2.1
      (by decide) (by decide) (by decide) (by decide) (by decide)

theorem parse_ok_path_split (bytes : List Nat) (r : WebRequest)
    (h : parse_request bytes = .ok r) :
    ∃ p q, envLookup r.environ (s2b "path") = some p ∧
      envLookup r.environ (s2b "query_string") = some q ∧
      ((asteriskForm bytes ∧ p = pathTok bytes ∧ q = []) ∨
       (¬ asteriskForm bytes ∧ pathTok bytes = p ++ 63 :: q ∧ ¬ 63 ∈ p) ∨
       (¬ asteriskForm bytes ∧ p = pathTok bytes ∧ q = [] ∧ ¬ 63 ∈ pathTok bytes)) := by
  obtain ⟨env1, ht, hpres, hpath⟩ := parse_ok_env1 bytes r h
  by_cases ha : asteriskForm bytes
  · have ht2 : target_resolve (env0 bytes) (methodTok bytes) (pathTok bytes) =
        .ok (envInsert (envInsert (env0 bytes) (s2b "path") (s2b "*"))
          (s2b "query_string") []) := by
      rw [ha.1, ha.2]
      exact target_resolve_asterisk (env0 bytes)
    have henv1 := Except.ok.inj (ht.symm.trans ht2)
    obtain ⟨hpl, hql, -⟩ := envLookup_path_qs (env0 bytes) (s2b "*") []
    refine ⟨s2b "*", [], ?_, ?_, Or.inl ⟨ha, ha.2.symm, rfl⟩⟩
    · rw [hpres _ (by decide), henv1]
      exact hpl
    · rw [hpres _ (by decide), henv1]
      exact hql
  · have h47 : (pathTok bytes).headD 0 = 47 := by
      by_contra h47
      rw [target_resolve_noslash (env0 bytes) _ _ ha h47] at ht
      exact absurd ht (by simp)
    by_cases hq : 63 ∈ pathTok bytes
    · obtain ⟨p1, q1, hdec, hnp⟩ := exists_first_sep 63 (pathTok bytes) hq
      have ht2 : target_resolve (env0 bytes) (methodTok bytes) (pathTok bytes) =
          .ok (envInsert (envInsert (env0 bytes) (s2b "path") p1)
            (s2b "query_string") q1) := by
        rw [hdec]
        exact target_resolve_query (env0 bytes) (methodTok bytes) p1 q1
          (by rw [← hdec]; exact ha) (by rw [← hdec]; exact h47) hnp
      have henv1 := Except.ok.inj (ht.symm.trans ht2)
      obtain ⟨hpl, hql, -⟩ := envLookup_path_qs (env0 bytes) p1 q1
      refine ⟨p1, q1, ?_, ?_, Or.inr (Or.inl ⟨ha, hdec, hnp⟩)⟩
      · rw [hpres _ (by decide), henv1]
        exact hpl
      · rw [hpres _ (by decide), henv1]
        exact hql
    · have ht2 := target_resolve_noquery (env0 bytes) (methodTok bytes)
        (pathTok bytes) ha h47 hq
      have henv1 := Except.ok.inj (ht.symm.trans ht2)
      obtain ⟨hpl, hql, -⟩ := envLookup_path_qs (env0 bytes) (pathTok bytes) []
      refine ⟨pathTok bytes, [], ?_, ?_, Or.inr (Or.inr ⟨ha, rfl, rfl, hq⟩)⟩
      · rw [hpres _ (by decide), henv1]
        exact hpl
      · rw [hpres _ (by decide), henv1]
        exact hql

/-- C5: on every successful parse, the request-target is split on the first
question mark only: if the target decomposes as `p ++ 63 :: q` with no
question mark in `p`, then `path = p` and `query_string = q` (so `q` keeps
any further question marks); if the target holds no question mark, `path`
is the full target and `query_string` is empty. -/
theorem c5_query_split (bytes : List Nat) (r : WebRequest)
    (h : parse_request bytes = .ok r) :
    (∀ p q, pathTok bytes = p ++ 63 :: q → ¬ 63 ∈ p →
      envLookup r.environ (s2b "path") = some p ∧
      envLookup r.environ (s2b "query_string") = some q) ∧
    (¬ 63 ∈ pathTok bytes →
      envLookup r.environ (s2b "path") = some (pathTok bytes) ∧
      envLookup r.environ (s2b "query_string") = some []) := by
  obtain ⟨p0, q0, hpl, hql, hcase⟩ := parse_ok_path_split bytes r h
  constructor
  · intro p q hdec hnp
    have hmem : 63 ∈ pathTok bytes := by
      rw [hdec]
      exact List.mem_append_right _ (List.mem_cons_self _ _)
    rcases hcase with ⟨ha, hp0, hq0⟩ | ⟨hna, hdec0, hnp0⟩ | ⟨hna, hp0, hq0, hno⟩
    · rw [ha.2] at hmem
      exact absurd hmem (by decide)
    · obtain ⟨hpp, hqq⟩ := first_sep_unique 63 p0 q0 p q
        (hdec0.symm.trans hdec) hnp0 hnp
      exact ⟨by rw [hpl, hpp], by rw [hql, hqq]⟩
    · exact absurd hmem hno
  · intro hno
    rcases hcase with ⟨ha, hp0, hq0⟩ | ⟨hna, hdec0, hnp0⟩ | ⟨hna, hp0, hq0, hno2⟩
    · exact ⟨by rw [hpl, hp0], by rw [hql, hq0]⟩
    · have hmem : 63 ∈ pathTok bytes := by
        rw [hdec0]
        exact List.mem_append_right _ (List.mem_cons_self _ _)
      exact absurd hmem hno
    · exact ⟨by rw [hpl, hp0], by rw [hql, hq0]⟩

/-- C5 witness: the spec test target `/a?b=1?c=2` — only the first question
mark splits, and the query string keeps the second one. -/
theorem c5_witness :
    envLookup [(s2b "method", s2b "get"), (s2b "protocol", s2b "http/1.0"),
      (s2b "path", s2b "/a"), (s2b "query_string", s2b "b=1?c=2")] (s2b "path") =
      some (s2b "/a") ∧
    envLookup [(s2b "method", s2b "get"), (s2b "protocol", s2b "http/1.0"),
      (s2b "path", s2b "/a"), (s2b "query_string", s2b "b=1?c=2")]
      (s2b "query_string") = some (s2b "b=1?c=2") :=
  (c5_query_split (s2b "GET /a?b=1?c=2 HTTP/1.0\r\n\r\n")
    ⟨[(s2b "method", s2b "get"), (s2b "protocol", s2b "http/1.0"),
      (s2b "path", s2b "/a"), (s2b "query_string", s2b "b=1?c=2")], s2b "/a"⟩
    (by decide)).1 (s2b "/a") (s2b "b=1?c=2") (by decide) (by decide)

/-- C6: header processing — a nonempty header line without a colon makes
the whole header pass fail with `MalformedHeaderLine` (also lifted to
`parse_request` when the request line passes its gates); a line that
splits as `name ++ 58 :: value` with no colon in `name` inserts the
ASCII-lowercased `http_`-marked name with the left-stripped value, which
is the value with a leading all-whitespace block removed and whose first
byte is not whitespace (trailing and interior bytes preserved verbatim);
an insert under an existing key overwrites it, so a later occurrence of
the same normalized header key wins, as the duplicate-header evaluation
shows. -/
theorem c6_headers :
    (∀ (env : Env) (ls : List (List Nat)), (∃ l ∈ ls, l ≠ [] ∧ ¬ 58 ∈ l) →
      process_headers env ls = .error .MalformedHeaderLine) ∧
    (∀ (env : Env) (name value : List Nat) (rest : List (List Nat)), ¬ 58 ∈ name →
      process_headers env ((name ++ 58 :: value) :: rest) =
        process_headers
          (envInsert env (ascii_lowercase (s2b "http_" ++ name)) (lstrip value)) rest) ∧
    (∀ l : List Nat, (∃ w, l = w ++ lstrip l ∧ ∀ b ∈ w, wsB b = true) ∧
      (∀ b rest2, lstrip l = b :: rest2 → wsB b = false)) ∧
    (∀ (env : Env) (k v : List Nat), envLookup (envInsert env k v) k = some v) ∧
    (∀ bytes, requestLineOK bytes →
      (∃ l ∈ headerLines bytes, l ≠ [] ∧ ¬ 58 ∈ l) →
      parse_request bytes = .error .MalformedHeaderLine) ∧
    okLookup (parse_request (s2b "GET / HTTP/1.0\r\nA: 1\r\nA: 2\r\n\r\n"))
      (s2b "http_a") = some (s2b "2") :=
  ⟨fun env ls => process_headers_bad ls env,
   fun env name value rest hn => process_headers_step env name value rest hn,
   fun l => ⟨lstrip_decomp l, fun b rest2 hh => lstrip_head_not_ws l b rest2 hh⟩,
   fun env k v => envLookup_envInsert_self env k v,
   fun bytes => parse_gate_mhl bytes,
   by decide⟩

/-- C6 witness: the header gate at the concrete input
`"GET / HTTP/1.1\r\nBadHeader\r\n\r\n"`. -/
theorem c6_witness :
    parse_request (s2b "GET / HTTP/1.1\r\nBadHeader\r\n\r\n") =
      .error .MalformedHeaderLine :=
  c6_headers.2.2.2.2.1 (s2b "GET / HTTP/1.1\r\nBadHeader\r\n\r\n")
    (by decide) (by decide)

/-- C7: on every successful parse the four reserved keys `method`,
`protocol`, `path`, `query_string` are present, and every entry of the
environment carries either a reserved key or a lowercase key marked with
`http_` in front. -/
theorem c7_fields_keys (bytes : List Nat) (r : WebRequest)
    (h : parse_request bytes = .ok r) :
    reservedPresent r.environ ∧ ∀ kv ∈ r.environ, KeyOK kv.1 := by
  refine ⟨parse_ok_reserved bytes r h, ?_⟩
  obtain ⟨h3, hp, hne, env1, env2, ht, hph, henv, hpath⟩ := parse_request_ok_inv bytes r h
  obtain ⟨pv, qv, hshape⟩ := target_resolve_shape _ _ _ _ ht
  have henv1 : ∀ kv ∈ env1, KeyOK kv.1 := by
    rw [hshape]
    intro kv hkv
    rcases envInsert_keys _ _ _ kv hkv with hm | hk
    · rcases envInsert_keys _ _ _ kv hm with hm2 | hk2
      · exact env0_keys bytes kv hm2
      · right; right; left; exact hk2
    · right; right; right; left; exact hk
  rw [henv]
  exact process_headers_keys (headerLines bytes) env1 env2 henv1 hph

/-- C7 witness: the invariant applied at the concrete input
`"GET /a HTTP/1.0\r\nX: 1\r\n\r\n"`. -/
theorem c7_witness :
    reservedPresent [(s2b "method", s2b "get"), (s2b "protocol", s2b "http/1.0"),
      (s2b "path", s2b "/a"), (s2b "query_string", []),
      (s2b "http_x", s2b "1")] :=
  (c7_fields_keys (s2b "GET /a HTTP/1.0\r\nX: 1\r\n\r\n")
    ⟨[(s2b "method", s2b "get"), (s2b "protocol", s2b "http/1.0"),
      (s2b "path", s2b "/a"), (s2b "query_string", []),
      (s2b "http_x", s2b "1")], s2b "/a"⟩ (by decide)).1

/-- C8: on every successful parse, the decoded path of the result is the
percent-decoding of the `path` field put through the lossy UTF-8 decoder,
while the `path` field itself keeps the still-percent-encoded bytes; and
when the `path` field holds only slashes and unreserved characters
(no escape to decode), the decoded path equals it unchanged. -/
theorem c8_decoded_path (bytes : List Nat) (r : WebRequest) (p : List Nat)
    (h : parse_request bytes = .ok r)
    (hp : envLookup r.environ (s2b "path") = some p) :
    r.path = utf8_lossy_bytes (percent_decode p) ∧
    ((∀ b ∈ p, unreservedByte b = true ∨ b = 47) → r.path = p) := by
  obtain ⟨env1, ht, hpres, hpath⟩ := parse_ok_env1 bytes r h
  have hp1 : envLookup env1 (s2b "path") = some p := by
    rw [← hpres _ (by decide)]
    exact hp
  have h1 : r.path = utf8_lossy_bytes (percent_decode p) := by
    rw [hpath, hp1]
    rfl
  refine ⟨h1, ?_⟩
  intro hall
  have hno37 : ¬ 37 ∈ p := by
    intro hm
    rcases hall 37 hm with hu | hu
    · exact absurd hu (by decide)
    · exact absurd hu (by decide)
  have hlt : ∀ b ∈ p, b < 128 := by
    intro b hb
    rcases hall b hb with hu | hu
    · exact unreservedByte_lt_128 b hu
    · omega
  rw [h1, percent_decode_no_escape p hno37, utf8_lossy_bytes_ascii p hlt]

/-- C8 witness: `"/foo%20bar"` stays percent-encoded in the `path` field
while the decoded path is its percent-decoding, and the all-unreserved
path `"/abc"` decodes to itself. -/
theorem c8_witness :
    (WebRequest.mk [(s2b "method", s2b "get"), (s2b "protocol", s2b "http/1.0"),
        (s2b "path", s2b "/foo%20bar"), (s2b "query_string", [])]
      (s2b "/foo bar")).path =
      utf8_lossy_bytes (percent_decode (s2b "/foo%20bar")) ∧
    (WebRequest.mk [(s2b "method", s2b "get"), (s2b "protocol", s2b "http/1.1"),
        (s2b "path", s2b "/abc"), (s2b "query_string", [])] (s2b "/abc")).path =
      s2b "/abc" := by
  constructor
  · exact (c8_decoded_path (s2b "GET /foo%20bar HTTP/1.0\r\n\r\n") _ _
      (by decide) (by decide)).1
  · exact (c8_decoded_path (s2b "GET /abc HTTP/1.1\r\n\r\n") _ _
      (by decide) (by decide)).2 (by decide)

/-- C9: with a 3-part request line and an empty second token, the parse
fails through the `assert!(path.len() > 0)` site when the protocol gate
before it passes, and in every case it neither succeeds nor reaches the
leading-slash check (never `MissingLeadingSlash`); equivalently, on every
successful parse the raw `path` field is nonempty. -/
theorem c9_nonempty_target (bytes : List Nat) :
    ((requestParts bytes).length = 3 → protoOK bytes → pathTok bytes = [] →
      parse_request bytes = .error .EmptyPath) ∧
    ((requestParts bytes).length = 3 → pathTok bytes = [] →
      (∀ r, parse_request bytes ≠ .ok r) ∧
      parse_request bytes ≠ .error .MissingLeadingSlash) ∧
    (∀ r, parse_request bytes = .ok r →
      pathTok bytes ≠ [] ∧
      ∃ p, envLookup r.environ (s2b "path") = some p ∧ p ≠ []) := by
  refine ⟨parse_gate_empty bytes, ?_, ?_⟩
  · intro h3 hpe
    by_cases hp : protoOK bytes
    · have he := parse_gate_empty bytes h3 hp hpe
      exact ⟨fun r hr => by rw [he] at hr; exact absurd hr (by simp),
        by rw [he]; decide⟩
    · have he := parse_gate_upv bytes h3 hp
      exact ⟨fun r hr => by rw [he] at hr; exact absurd hr (by simp),
        by rw [he]; decide⟩
  · intro r h
    have hne : pathTok bytes ≠ [] := (parse_request_ok_inv bytes r h).2.2.1
    obtain ⟨p0, q0, hpl, hql, hcase⟩ := parse_ok_path_split bytes r h
    refine ⟨hne, p0, hpl, ?_⟩
    rcases hcase with ⟨ha, hp0, hq0⟩ | ⟨hna, hdec0, hnp0⟩ | ⟨hna, hp0, hq0, hno⟩
    · rw [hp0, ha.2]
      decide
    · intro hnil
      rw [hnil] at hdec0
      have hmem : 63 ∈ pathTok bytes := by
        rw [hdec0]
        exact List.mem_cons_self _ _
      have h47 : (pathTok bytes).headD 0 = 47 := by
        by_contra h47
        obtain ⟨env1, ht, -, -⟩ := parse_ok_env1 bytes r h
        rw [target_resolve_noslash (env0 bytes) _ _ hna h47] at ht
        exact absurd ht (by simp)
      rw [hdec0] at h47
      simp at h47
    · rw [hp0]
      exact hne

/-- C9 witness: the assertion side at `"GET  HTTP/1.1\r\n\r\n"` (two
spaces, empty second token), and the nonempty raw path on the successful
parse of `"GET /x HTTP/1.0\r\n\r\n"`. -/
theorem c9_witness :
    parse_request (s2b "GET  HTTP/1.1\r\n\r\n") = .error .EmptyPath ∧
    (pathTok (s2b "GET /x HTTP/1.0\r\n\r\n") ≠ [] ∧
      ∃ p, envLookup [(s2b "method", s2b "get"), (s2b "protocol", s2b "http/1.0"),
        (s2b "path", s2b "/x"), (s2b "query_string", [])] (s2b "path") = some p ∧
        p ≠ []) :=
  ⟨(c9_nonempty_target (s2b "GET  HTTP/1.1\r\n\r\n")).1
      (by decide) (by decide) (by decide),
   (c9_nonempty_target (s2b "GET /x HTTP/1.0\r\n\r\n")).2.2
      ⟨[(s2b "method", s2b "get"), (s2b "protocol", s2b "http/1.0"),
        (s2b "path", s2b "/x"), (s2b "query_string", [])], s2b "/x"⟩ (by decide)⟩

/-- C10: the header loop skips every empty line, not only the final blank
terminator, and an input with an interior empty line (an extra CRLFCRLF
before the end) still parses successfully, with the header lines after the
interior empty line still processed. -/
theorem c10_interior_empty_lines :
    (∀ (env : Env) (ls : List (List Nat)),
      process_headers env ([] :: ls) = process_headers env ls) ∧
    okLookup (parse_request (s2b "GET / HTTP/1.0\r\nA: 1\r\n\r\nB: 2\r\n\r\n"))
      (s2b "http_a") = some (s2b "1") ∧
    okLookup (parse_request (s2b "GET / HTTP/1.0\r\nA: 1\r\n\r\nB: 2\r\n\r\n"))
      (s2b "http_b") = some (s2b "2") :=
  ⟨process_headers_skip, by decide, by decide⟩
